import Mathlib

/-!
Shallow embedding of the caption pipeline scripts
(`scripts/transcribe.py` and `scripts/enhance_captions.py`).

Modelling conventions:
* Python strings are lists of characters (`PyString`); `str.strip()` and
  `str.split()` (whitespace splitting, empty pieces dropped) are `pyStrip`
  and `pySplitWs`.
* Python float arithmetic on millisecond quantities is modelled as exact
  rational arithmetic (`ℚ`); `int()` applied to such a value truncates
  toward zero (`pyTrunc`).
* `transcribe_audio` calls `sys.exit(1)` when no words were transcribed;
  the allocator model returns `none` in that case and `some captions`
  otherwise.
* The external Groq HTTP call of `enhance_with_groq` is modelled by an
  explicit outcome value (`GroqOutcome`): the code catches every exception
  around the request and checks the status code, so each failure shape is
  one constructor.
-/

abbrev PyString := List Char

/-- Python `str.strip()`: drop whitespace from both ends. -/
def pyStrip (s : PyString) : PyString :=
  ((s.dropWhile Char.isWhitespace).reverse.dropWhile Char.isWhitespace).reverse

/-- Python `str.split()` with no argument: split on whitespace runs,
dropping empty pieces. -/
def pySplitWs (s : PyString) : List PyString :=
  (List.splitOnP Char.isWhitespace s).filter (fun w => w ≠ [])

/-- Python `int()` on an exact rational: truncation toward zero. -/
def pyTrunc (q : ℚ) : ℤ := if q < 0 then ⌈q⌉ else ⌊q⌋

/-- One caption record as produced by `transcribe.py` and optionally
augmented by `enhance_captions.py`.  The optional fields model JSON keys
that are absent until the corresponding stage adds them. -/
structure Caption where
  text : PyString
  startMs : ℤ
  endMs : ℤ
  confidence : ℚ
  original : Option PyString := none
  enhanced : Option Bool := none
  lowConfidence : Option Bool := none
  deriving Repr, DecidableEq

/-- `start_offset_ms = 200` in `transcribe_audio`. -/
def startOffsetMs : ℤ := 200

/-- `end_buffer_ms = 500` in `transcribe_audio`. -/
def endBufferMs : ℤ := 500

/-- `word_duration_ms = usable_duration / len(all_words)` where
`usable_duration = audio_duration_ms - start_offset_ms - end_buffer_ms`.
The program divides IEEE doubles; this models the quotient as an exact
rational, which can differ from the double by an ulp that `int()` can
amplify to 1 ms.  Exact-valued conclusions are therefore only stated at
inputs where the float computation is exact, or with 1 ms of slack. -/
def wordDurationMs (audioDurationMs : ℤ) (n : ℕ) : ℚ :=
  ((audioDurationMs - startOffsetMs - endBufferMs : ℤ) : ℚ) / (n : ℚ)

/-- The caption built for word `w` at position `i`:
`s = int(start_offset_ms + i * word_duration_ms)`,
`e = int(start_offset_ms + (i + 1) * word_duration_ms)`,
`confidence = 0.9` (the code always writes the literal 0.9).
The float expressions are modelled in exact rational arithmetic; see the
caveat on `wordDurationMs` for how the 1 ms float truncation slack is
accounted for in the theorems. -/
def captionAt (d : ℚ) (i : ℕ) (w : PyString) : Caption :=
  { text := w
    startMs := pyTrunc ((startOffsetMs : ℚ) + (i : ℚ) * d)
    endMs := pyTrunc ((startOffsetMs : ℚ) + ((i : ℚ) + 1) * d)
    confidence := 9/10 }

/-- The `for i, word in enumerate(all_words)` loop, carrying the index. -/
def buildCaptions (d : ℚ) : ℕ → List PyString → List Caption
  | _, [] => []
  | i, w :: ws => captionAt d i w :: buildCaptions d (i + 1) ws

/-- Lines 110-125 of `transcribe.py`: distribute the words evenly over the
audio duration, with the fixed lead-in and trailing buffer. -/
def distributeWords (words : List PyString) (audioDurationMs : ℤ) : List Caption :=
  buildCaptions (wordDurationMs audioDurationMs words.length) 0 words

/-- Line 106-107: if the probed duration is not positive (ffprobe failed,
`get_audio_duration_ms` returned 0), estimate it as `len(all_words) * 300`. -/
def effectiveDurationMs (probedMs : ℤ) (n : ℕ) : ℤ :=
  if probedMs ≤ 0 then (n : ℤ) * 300 else probedMs

/-- Lines 101-125 of `transcribe.py`: the timing allocation step of
`transcribe_audio`.  `none` models `sys.exit(1)` on an empty word list. -/
def transcribeAllocate (words : List PyString) (probedMs : ℤ) : Option (List Caption) :=
  if words.isEmpty then none
  else some (distributeWords words (effectiveDurationMs probedMs words.length))

/-- One entry of `result["chunks"]`: a text plus the model's timestamp
pair for the whole chunk (the code never reads the timestamps). -/
structure Chunk where
  text : PyString
  tsStartMs : ℚ
  tsEndMs : ℚ

/-- Body of the `for chunk in result["chunks"]` loop (lines 89-94):
`chunk_text = chunk["text"].strip()`, skip if empty, else split into
words.  The chunk timestamps are not consulted. -/
def chunkWords (c : Chunk) : List PyString :=
  let t := pyStrip c.text
  if t = [] then [] else pySplitWs t

/-- Lines 87-95 of `transcribe.py`: flatten the chunks into one word list. -/
def collectChunkWords (chunks : List Chunk) : List PyString :=
  chunks.flatMap chunkWords

/-- `transcribe_audio` on a model result that carries chunks: collect the
words, then allocate timings. -/
def transcribeFromChunks (chunks : List Chunk) (probedMs : ℤ) : Option (List Caption) :=
  transcribeAllocate (collectChunkWords chunks) probedMs

/-- The integer value of `int(start_offset_ms + j * word_duration_ms)`:
the boundary between caption `j - 1` and caption `j`, as a single integer
division.  Proved equal to the rational computation below. -/
def allocPoint (audioDurationMs : ℤ) (n : ℕ) (j : ℕ) : ℤ :=
  (startOffsetMs * n + j * (audioDurationMs - startOffsetMs - endBufferMs)).tdiv n

/-- Outcome of the external Groq call in `enhance_with_groq`:
`requests` missing, the request raising, a non-200 status, a 200 response
whose body indexing raises, or a 200 response with a content string. -/
inductive GroqOutcome where
  | importFailed
  | requestFailed
  | httpError (code : ℕ)
  | malformedBody
  | ok (content : PyString)

/-- Lines 70-74 of `enhance_captions.py`, body of the per-caption loop:
when the corrected token differs, keep the old text in `original`, install
the new text, and set `enhanced`. -/
def correctCaption (c : Caption) (w : PyString) : Caption :=
  if c.text ≠ w then { c with original := some c.text, text := w, enhanced := some true }
  else c

/-- Lines 69-79: the word-count safety check and the correction loop. -/
def applyCorrections (captions : List Caption) (correctedWords : List PyString) :
    List Caption :=
  if correctedWords.length = captions.length then
    List.zipWith correctCaption captions correctedWords
  else captions

/-- `enhance_with_groq` (lines 23-86): every failure path returns the
captions unchanged; a 200 response's content is stripped and split into
the corrected word list before the safety check. -/
def enhance_with_groq (captions : List Caption) (outcome : GroqOutcome) : List Caption :=
  match outcome with
  | .ok content => applyCorrections captions (pySplitWs (pyStrip content))
  | _ => captions

/-- `flag_low_confidence` (lines 89-104): add `lowConfidence: true` to the
captions whose confidence is strictly below the threshold (default 0.7);
the printing of the flagged summary has no effect on the data. -/
def flag_low_confidence (captions : List Caption) (threshold : ℚ := 7/10) : List Caption :=
  captions.map (fun c =>
    if c.confidence < threshold then { c with lowConfidence := some true } else c)

/-! ### Arithmetic bridge: `pyTrunc` of the rational formulas as integer division -/

theorem pyTrunc_intCast (m : ℤ) : pyTrunc (m : ℚ) = m := by
  unfold pyTrunc
  split <;> simp

theorem pyTrunc_intCast_div_natCast (a : ℤ) (n : ℕ) (hn : 0 < n) :
    pyTrunc ((a : ℚ) / (n : ℚ)) = a.tdiv n := by
  have hnq : (0 : ℚ) < (n : ℚ) := by exact_mod_cast hn
  unfold pyTrunc
  rcases le_or_lt 0 a with ha | ha
  · have haq : (0 : ℚ) ≤ (a : ℚ) := by exact_mod_cast ha
    rw [if_neg (not_lt.mpr (div_nonneg haq hnq.le))]
    rw [Rat.floor_intCast_div_natCast, Int.tdiv_eq_ediv ha (by positivity)]
  · have haq : (a : ℚ) < 0 := by exact_mod_cast ha
    rw [if_pos (div_neg_of_neg_of_pos haq hnq)]
    have hrw : (a : ℚ) / (n : ℚ) = -(((-a : ℤ) : ℚ) / (n : ℚ)) := by push_cast; ring
    rw [hrw, Int.ceil_neg, Rat.floor_intCast_div_natCast]
    rw [show a.tdiv (n : ℤ) = -((-a).tdiv (n : ℤ)) by rw [Int.neg_tdiv]; ring]
    rw [Int.tdiv_eq_ediv (by omega) (by positivity)]

theorem captionAt_startMs (D : ℤ) (n : ℕ) (hn : 0 < n) (i : ℕ) (w : PyString) :
    (captionAt (wordDurationMs D n) i w).startMs = allocPoint D n i := by
  have hnq : ((n : ℚ)) ≠ 0 := by positivity
  have hrw : (startOffsetMs : ℚ) + (i : ℚ) * wordDurationMs D n
      = ((startOffsetMs * n + i * (D - startOffsetMs - endBufferMs) : ℤ) : ℚ) / (n : ℚ) := by
    unfold wordDurationMs
    field_simp
  show pyTrunc ((startOffsetMs : ℚ) + (i : ℚ) * wordDurationMs D n) = _
  rw [hrw, pyTrunc_intCast_div_natCast _ _ hn]
  rfl

theorem captionAt_endMs (D : ℤ) (n : ℕ) (hn : 0 < n) (i : ℕ) (w : PyString) :
    (captionAt (wordDurationMs D n) i w).endMs = allocPoint D n (i + 1) := by
  have hnq : ((n : ℚ)) ≠ 0 := by positivity
  have hrw : (startOffsetMs : ℚ) + ((i : ℚ) + 1) * wordDurationMs D n
      = ((startOffsetMs * n + (i + 1 : ℕ) * (D - startOffsetMs - endBufferMs) : ℤ) : ℚ) / (n : ℚ) := by
    unfold wordDurationMs
    field_simp
  show pyTrunc ((startOffsetMs : ℚ) + ((i : ℚ) + 1) * wordDurationMs D n) = _
  rw [hrw, pyTrunc_intCast_div_natCast _ _ hn]
  rfl

/-! ### Structure of the caption list built by the allocation loop -/

theorem buildCaptions_length (d : ℚ) (i : ℕ) (ws : List PyString) :
    (buildCaptions d i ws).length = ws.length := by
  induction ws generalizing i with
  | nil => rfl
  | cons w ws ih => simp [buildCaptions, ih]

theorem getElem?_eq_some_get {α : Type} (l : List α) (i : ℕ) (h : i < l.length) :
    l[i]? = some (l.get ⟨i, h⟩) := by
  rw [List.getElem?_eq_getElem h, List.get_eq_getElem]

theorem buildCaptions_getElem? (d : ℚ) (i j : ℕ) (ws : List PyString) (h : j < ws.length) :
    (buildCaptions d i ws)[j]? = some (captionAt d (i + j) (ws.get ⟨j, h⟩)) := by
  induction ws generalizing i j with
  | nil => simp at h
  | cons w ws ih =>
    cases j with
    | zero => simp [buildCaptions]
    | succ j =>
      have hj : j < ws.length := by simpa using h
      have := ih (i + 1) j hj
      simp only [buildCaptions, List.getElem?_cons_succ]
      rw [this]
      congr 2
      omega

theorem buildCaptions_map_text (d : ℚ) (i : ℕ) (ws : List PyString) :
    (buildCaptions d i ws).map Caption.text = ws := by
  induction ws generalizing i with
  | nil => rfl
  | cons w ws ih => simp [buildCaptions, captionAt, ih]

theorem buildCaptions_confidence (d : ℚ) (i : ℕ) (ws : List PyString) :
    ∀ c ∈ buildCaptions d i ws, c.confidence = 9/10 := by
  induction ws generalizing i with
  | nil => intro c hc; simp [buildCaptions] at hc
  | cons w ws ih =>
    intro c hc
    rcases (by simpa [buildCaptions] using hc : c = captionAt d i w ∨ c ∈ buildCaptions d (i + 1) ws) with h | h
    · rw [h]; rfl
    · exact ih (i + 1) c h

theorem distributeWords_length (words : List PyString) (D : ℤ) :
    (distributeWords words D).length = words.length :=
  buildCaptions_length _ _ _

theorem distributeWords_getElem? (words : List PyString) (D : ℤ) (j : ℕ)
    (h : j < words.length) :
    (distributeWords words D)[j]?
      = some (captionAt (wordDurationMs D words.length) j (words.get ⟨j, h⟩)) := by
  have := buildCaptions_getElem? (wordDurationMs D words.length) 0 j words h
  simpa [distributeWords] using this

theorem allocPoint_last (D : ℤ) (n : ℕ) (hn : 0 < n) :
    allocPoint D n n = D - endBufferMs := by
  unfold allocPoint
  rw [show startOffsetMs * (n : ℤ) + (n : ℤ) * (D - startOffsetMs - endBufferMs)
      = (n : ℤ) * (D - endBufferMs) by ring]
  rw [Int.mul_tdiv_cancel_left _ (by exact_mod_cast hn.ne')]

theorem distributeWords_map_pair (words : List PyString) (D : ℤ) :
    (distributeWords words D).map (fun c => (c.startMs, c.endMs))
      = (List.range words.length).map
          (fun j => (allocPoint D words.length j, allocPoint D words.length (j + 1))) := by
  apply List.ext_getElem?
  intro j
  rcases Nat.lt_or_ge j words.length with hj | hj
  · have hn : 0 < words.length := by omega
    rw [List.getElem?_map, distributeWords_getElem? words D j hj, Option.map_some']
    rw [List.getElem?_map, List.getElem?_range hj, Option.map_some']
    rw [captionAt_startMs _ _ hn, captionAt_endMs _ _ hn]
  · rw [List.getElem?_map, List.getElem?_map]
    rw [List.getElem?_eq_none (by rw [distributeWords_length]; exact hj),
        List.getElem?_eq_none (by simpa using hj)]
    rfl

theorem transcribeAllocate_eq_some (words : List PyString) (probedMs : ℤ)
    (h : words ≠ []) :
    transcribeAllocate words probedMs
      = some (distributeWords words (effectiveDurationMs probedMs words.length)) := by
  cases words with
  | nil => exact absurd rfl h
  | cons w ws => rfl

theorem transcribeAllocate_getLast_endMs (words : List PyString) (probedMs : ℤ)
    (h : words ≠ []) :
    (transcribeAllocate words probedMs).map (fun cs => cs.getLast?.map Caption.endMs)
      = some (some (effectiveDurationMs probedMs words.length - endBufferMs)) := by
  have hn : 0 < words.length := List.length_pos.mpr h
  rw [transcribeAllocate_eq_some words probedMs h, Option.map_some']
  congr 1
  rw [List.getLast?_eq_getElem?]
  have hlen : (distributeWords words (effectiveDurationMs probedMs words.length)).length
      = words.length := distributeWords_length _ _
  have hlt : words.length - 1 < words.length := by omega
  rw [hlen, distributeWords_getElem? words _ _ hlt, Option.map_some']
  rw [captionAt_endMs _ _ hn]
  rw [show words.length - 1 + 1 = words.length by omega]
  rw [allocPoint_last _ _ hn]

theorem transcribeAllocate_pair (words : List PyString) (probedMs : ℤ) (j : ℕ)
    (hj : j < words.length) :
    (transcribeAllocate words probedMs).map
        (fun cs => cs[j]?.map (fun c => (c.startMs, c.endMs)))
      = some (some
          (allocPoint (effectiveDurationMs probedMs words.length) words.length j,
           allocPoint (effectiveDurationMs probedMs words.length) words.length (j + 1))) := by
  have h : words ≠ [] := by intro h; subst h; simp at hj
  have hn : 0 < words.length := by omega
  rw [transcribeAllocate_eq_some _ _ h, Option.map_some']
  rw [distributeWords_getElem? words _ _ hj, Option.map_some']
  rw [captionAt_startMs _ _ hn, captionAt_endMs _ _ hn]

theorem allocPoint_strict_mono_succ (D : ℤ) (n : ℕ) (j : ℕ) (hn : 0 < n)
    (hD : (n : ℤ) + startOffsetMs + endBufferMs ≤ D) :
    allocPoint D n j < allocPoint D n (j + 1) := by
  simp only [allocPoint, startOffsetMs, endBufferMs] at hD ⊢
  set U : ℤ := D - 200 - 500 with hU
  have hnz : (0 : ℤ) < (n : ℤ) := by exact_mod_cast hn
  have hUn : (n : ℤ) ≤ U := by omega
  have hU0 : (0 : ℤ) ≤ U := le_trans hnz.le hUn
  have hjU : (0 : ℤ) ≤ (j : ℤ) * U := mul_nonneg (by positivity) hU0
  have ha : (0 : ℤ) ≤ 200 * (n : ℤ) + (j : ℤ) * U := by positivity
  have ha2 : (0 : ℤ) ≤ 200 * (n : ℤ) + ((j : ℕ) + 1 : ℕ) * U := by push_cast; nlinarith
  rw [Int.tdiv_eq_ediv ha hnz.le, Int.tdiv_eq_ediv ha2 hnz.le]
  have hrw : 200 * (n : ℤ) + ((j : ℕ) + 1 : ℕ) * U = 200 * (n : ℤ) + (j : ℤ) * U + U := by
    push_cast; ring
  rw [hrw]
  have h1 : 200 * (n : ℤ) + (j : ℤ) * U + (n : ℤ) ≤ 200 * (n : ℤ) + (j : ℤ) * U + U := by omega
  have h2 : (200 * (n : ℤ) + (j : ℤ) * U + (n : ℤ)) / (n : ℤ)
      ≤ (200 * (n : ℤ) + (j : ℤ) * U + U) / (n : ℤ) := Int.ediv_le_ediv hnz h1
  have h3 : (200 * (n : ℤ) + (j : ℤ) * U + (n : ℤ)) / (n : ℤ)
      = (200 * (n : ℤ) + (j : ℤ) * U) / (n : ℤ) + 1 := by
    rw [show 200 * (n : ℤ) + (j : ℤ) * U + (n : ℤ)
        = 200 * (n : ℤ) + (j : ℤ) * U + 1 * (n : ℤ) by ring]
    rw [Int.add_mul_ediv_right _ _ (ne_of_gt hnz)]
  omega

/-- Claim C1: in the no-timestamp, no-probe mode the spec says the last
caption ends at `word_count * 300`; the code still subtracts the lead-in
and trailing buffer, so with 5 words the last `endMs` is 1000, not 1500. -/
theorem C1_counterexample :
    (transcribeAllocate [['a'], ['b'], ['c'], ['d'], ['e']] 0).map
        (fun cs => cs.getLast?.map Caption.endMs) = some (some 1000)
      ∧ (1000 : ℤ) ≠ 5 * 300 := by
  refine ⟨?_, by decide⟩
  rw [transcribeAllocate_getLast_endMs _ _ (by decide)]
  decide

/-- Claim C1 (amended): with the probe failed, the duration used is
synthesized as `word_count * 300`, but the 200 ms lead-in and 500 ms
trailing buffer are still applied, so the last caption ends in
`[word_count * 300 - 501, word_count * 300 - 500]` (the 1 ms of slack
covers the float truncation of the program; the exact-rational model
sits at the upper end), never at `word_count * 300`. -/
theorem C1_amended (words : List PyString) (probedMs : ℤ)
    (h : words ≠ []) (hp : probedMs ≤ 0) :
    effectiveDurationMs probedMs words.length = (words.length : ℤ) * 300
      ∧ ∃ e, (transcribeAllocate words probedMs).map
            (fun cs => cs.getLast?.map Caption.endMs) = some (some e)
          ∧ (words.length : ℤ) * 300 - 501 ≤ e
          ∧ e ≤ (words.length : ℤ) * 300 - 500 := by
  have hD : effectiveDurationMs probedMs words.length = (words.length : ℤ) * 300 := by
    unfold effectiveDurationMs
    rw [if_pos hp]
  refine ⟨hD, effectiveDurationMs probedMs words.length - endBufferMs,
    transcribeAllocate_getLast_endMs words probedMs h, ?_, ?_⟩
  · rw [hD]; unfold endBufferMs; omega
  · rw [hD]; unfold endBufferMs; omega

/-- Witness for C1 (amended): 5 words, probe failed; the last `endMs` lies
in `[999, 1000]` (the model yields 1000). -/
theorem C1_amended_witness :
    effectiveDurationMs 0 ([['a'], ['b'], ['c'], ['d'], ['e']] : List PyString).length
        = (([['a'], ['b'], ['c'], ['d'], ['e']] : List PyString).length : ℤ) * 300
      ∧ ∃ e, (transcribeAllocate [['a'], ['b'], ['c'], ['d'], ['e']] 0).map
            (fun cs => cs.getLast?.map Caption.endMs) = some (some e)
          ∧ (([['a'], ['b'], ['c'], ['d'], ['e']] : List PyString).length : ℤ) * 300 - 501 ≤ e
          ∧ e ≤ (([['a'], ['b'], ['c'], ['d'], ['e']] : List PyString).length : ℤ) * 300 - 500 :=
  C1_amended [['a'], ['b'], ['c'], ['d'], ['e']] 0 (by decide) (by decide)

/-- Claim C2: the spec says the empty word list yields an empty caption
list and never an error; the code calls `sys.exit(1)` (modelled `none`),
so no caption list is produced at all. -/
theorem C2_counterexample :
    transcribeAllocate ([] : List PyString) 0 = none
      ∧ transcribeAllocate ([] : List PyString) 0 ≠ some [] :=
  ⟨rfl, by decide⟩

/-- Claim C2 (amended): on an empty word list the program exits with an
error (modelled `none`); on every non-empty word list the allocation step
totally succeeds, with one caption per word. -/
theorem C2_amended (words : List PyString) (probedMs : ℤ) :
    (words = [] → transcribeAllocate words probedMs = none)
      ∧ (words ≠ [] → ∃ cs, transcribeAllocate words probedMs = some cs
          ∧ cs.length = words.length) := by
  constructor
  · intro h; subst h; rfl
  · intro h
    exact ⟨_, transcribeAllocate_eq_some words probedMs h, distributeWords_length _ _⟩

/-- Witness for C2 (amended): a one-word list allocates successfully. -/
theorem C2_amended_witness :
    ∃ cs, transcribeAllocate [['h']] 0 = some cs
      ∧ cs.length = ([['h']] : List PyString).length :=
  (C2_amended [['h']] 0).2 (by decide)

/-- Claim C3: the spec says `startMs < endMs` for every record whatever the
duration; with one word and a probed duration of 300 ms the word duration
is negative and the single caption runs from 200 to -200. -/
theorem C3_counterexample :
    (transcribeAllocate [['w']] 300).map
        (fun cs => cs[0]?.map (fun c => (c.startMs, c.endMs)))
      = some (some (200, -200))
      ∧ ¬ ((200 : ℤ) < -200) := by
  refine ⟨?_, by decide⟩
  rw [transcribeAllocate_pair [['w']] 300 0 (by decide)]
  decide

/-- Claim C3 (amended): for every non-empty word list the allocator emits
one caption per word in input order; the last caption ends in
`[effectiveDuration - 501, effectiveDuration - 500]` (1 ms of slack for
the program's float truncation; the exact-rational model sits at the
upper end), so the total span stays within the measured or estimated
duration; `startMs < endMs` holds for every record provided the
effective duration is at least `word_count + 700` ms (word duration at
least 1 ms), and can fail below that. -/
theorem C3_amended (words : List PyString) (probedMs : ℤ) (h : words ≠ []) :
    (transcribeAllocate words probedMs).map (fun cs => cs.map Caption.text)
        = some words
      ∧ (∃ e, (transcribeAllocate words probedMs).map
            (fun cs => cs.getLast?.map Caption.endMs) = some (some e)
          ∧ effectiveDurationMs probedMs words.length - 501 ≤ e
          ∧ e ≤ effectiveDurationMs probedMs words.length - 500
          ∧ e ≤ effectiveDurationMs probedMs words.length)
      ∧ ((words.length : ℤ) + startOffsetMs + endBufferMs
            ≤ effectiveDurationMs probedMs words.length →
          ∀ j, j < words.length →
            ∃ s e, (transcribeAllocate words probedMs).map
                (fun cs => cs[j]?.map (fun c => (c.startMs, c.endMs)))
              = some (some (s, e)) ∧ s < e) := by
  refine ⟨?_, ?_, ?_⟩
  · rw [transcribeAllocate_eq_some _ _ h, Option.map_some']
    exact congrArg some (buildCaptions_map_text _ _ _)
  · refine ⟨effectiveDurationMs probedMs words.length - endBufferMs,
      transcribeAllocate_getLast_endMs words probedMs h, ?_, ?_, ?_⟩
    · unfold endBufferMs; omega
    · unfold endBufferMs; omega
    · unfold endBufferMs; omega
  · intro hD j hj
    have hn : 0 < words.length := by omega
    refine ⟨_, _, transcribeAllocate_pair words probedMs j hj, ?_⟩
    exact allocPoint_strict_mono_succ _ _ _ hn hD

/-- Witness for C3 (amended): 3 words, probed duration 10000 ms. -/
theorem C3_amended_witness :
    (transcribeAllocate [['a'], ['b'], ['c']] 10000).map
        (fun cs => cs.map Caption.text) = some [['a'], ['b'], ['c']]
      ∧ (∃ s e, (transcribeAllocate [['a'], ['b'], ['c']] 10000).map
            (fun cs => cs[0]?.map (fun c => (c.startMs, c.endMs)))
          = some (some (s, e)) ∧ s < e) :=
  ⟨(C3_amended [['a'], ['b'], ['c']] 10000 (by decide)).1,
   (C3_amended [['a'], ['b'], ['c']] 10000 (by decide)).2.2 (by decide) 0 (by decide)⟩

/-- Claim C5: the spec says confidence is 0.5 in the no-probe fallback;
the code writes 0.9 unconditionally, so with the probe failed all
confidences are 0.9, not 0.5. -/
theorem C5_counterexample :
    (transcribeAllocate [['a'], ['b'], ['c']] 0).map
        (fun cs => cs.map Caption.confidence)
      = some [9/10, 9/10, 9/10]
      ∧ ¬ ((9/10 : ℚ) = 1/2) := by
  constructor
  · rfl
  · norm_num

/-- Claim C5 (amended): every caption the allocator emits has confidence
0.9, in the probe-backed and in the no-probe mode alike. -/
theorem C5_amended (words : List PyString) (probedMs : ℤ) (cs : List Caption)
    (hcs : transcribeAllocate words probedMs = some cs) :
    ∀ c ∈ cs, c.confidence = 9/10 := by
  cases words with
  | nil => exact absurd hcs (by simp [transcribeAllocate])
  | cons w ws =>
    rw [transcribeAllocate_eq_some _ _ (by simp)] at hcs
    injection hcs with hcs
    subst hcs
    exact buildCaptions_confidence _ _ _

/-- Witness for C5 (amended): the single caption of a one-word, no-probe
run has confidence 0.9. -/
theorem C5_amended_witness :
    (captionAt (wordDurationMs (effectiveDurationMs 0 1) 1) 0 ['a']).confidence = 9/10 :=
  C5_amended [['a']] 0 _ rfl _ (by simp [distributeWords, buildCaptions])

/-- Claim C9: probe-backed mode, duration 10000 ms, 10 words: the captions
run 200 to 9500 in steps of exactly 930 ms. -/
theorem C9_intervals :
    (transcribeAllocate (List.replicate 10 ['w']) 10000).map
        (fun cs => cs.map (fun c => (c.startMs, c.endMs)))
      = some [(200, 1130), (1130, 2060), (2060, 2990), (2990, 3920), (3920, 4850),
              (4850, 5780), (5780, 6710), (6710, 7640), (7640, 8570), (8570, 9500)] := by
  rw [transcribeAllocate_eq_some _ _ (by decide), Option.map_some']
  rw [distributeWords_map_pair]
  decide

/-- Claim C10: adjacent captions of the global distribution are exactly
contiguous: caption `j` ends where caption `j + 1` starts, for any word
list and any audio duration. -/
theorem C10_contiguous (words : List PyString) (audioDurationMs : ℤ) (j : ℕ)
    (hj : j + 1 < words.length) :
    (distributeWords words audioDurationMs)[j]?.map Caption.endMs
      = (distributeWords words audioDurationMs)[j + 1]?.map Caption.startMs := by
  have hj0 : j < words.length := by omega
  have hn : 0 < words.length := by omega
  rw [distributeWords_getElem? words _ _ hj0, distributeWords_getElem? words _ _ hj]
  rw [Option.map_some', Option.map_some']
  rw [captionAt_endMs _ _ hn, captionAt_startMs _ _ hn]

/-- Witness for C10: two words over 1500 ms; caption 0 ends where caption
1 starts. -/
theorem C10_contiguous_witness :
    (distributeWords [['a'], ['b']] 1500)[0]?.map Caption.endMs
      = (distributeWords [['a'], ['b']] 1500)[1]?.map Caption.startMs :=
  C10_contiguous [['a'], ['b']] 1500 0 (by decide)

theorem chunkWords_congr (c d : Chunk) (h : c.text = d.text) :
    chunkWords c = chunkWords d := by
  unfold chunkWords
  rw [h]

theorem collectChunkWords_congr (c1 c2 : List Chunk)
    (h : c1.map Chunk.text = c2.map Chunk.text) :
    collectChunkWords c1 = collectChunkWords c2 := by
  induction c1 generalizing c2 with
  | nil =>
    cases c2 with
    | nil => rfl
    | cons b m => simp at h
  | cons a l ih =>
    cases c2 with
    | nil => simp at h
    | cons b m =>
      simp only [List.map_cons, List.cons.injEq] at h
      simp only [collectChunkWords, List.flatMap_cons]
      rw [chunkWords_congr a b h.1]
      have := ih m h.2
      simp only [collectChunkWords] at this
      rw [this]

/-- Claim C4: the spec says each chunk's interval is split into equal
sub-intervals for its words; the code ignores chunk timestamps and
distributes globally.  With chunks `[0,1000)` holding "a" and
`[1000,4000)` holding "b" over a probed 10000 ms, the word of the first
chunk spans `[200, 4850)`: 4650 ms against a 1000 ms chunk, far outside
the claimed 1 ms-per-word tolerance. -/
theorem C4_counterexample :
    (transcribeFromChunks [⟨['a'], 0, 1000⟩, ⟨['b'], 1000, 4000⟩] 10000).map
        (fun cs => cs[0]?.map (fun c => (c.startMs, c.endMs)))
      = some (some (200, 4850))
      ∧ ¬ ((4850 - 200 : ℤ) - (1000 - 0) ≤ 1 ∧ (1000 - 0 : ℤ) - (4850 - 200) ≤ 1) := by
  refine ⟨?_, by decide⟩
  show (transcribeAllocate (collectChunkWords _) 10000).map _ = _
  rw [show collectChunkWords [⟨['a'], 0, 1000⟩, ⟨['b'], 1000, 4000⟩]
      = [['a'], ['b']] from rfl]
  rw [transcribeAllocate_pair [['a'], ['b']] 10000 0 (by decide)]
  decide

/-- Claim C4 (amended): chunk timestamps are ignored entirely; the caption
output depends only on the chunks' texts and the probed duration, the
words being timed by the global even distribution rather than by
splitting each chunk's interval. -/
theorem C4_amended (c1 c2 : List Chunk) (probedMs : ℤ)
    (h : c1.map Chunk.text = c2.map Chunk.text) :
    transcribeFromChunks c1 probedMs = transcribeFromChunks c2 probedMs := by
  unfold transcribeFromChunks
  rw [collectChunkWords_congr c1 c2 h]

/-- Witness for C4 (amended): moving a chunk's timestamps leaves the
output unchanged. -/
theorem C4_amended_witness :
    transcribeFromChunks [⟨['a'], 0, 1000⟩] 10000
      = transcribeFromChunks [⟨['a'], 5000, 6000⟩] 10000 :=
  C4_amended [⟨['a'], 0, 1000⟩] [⟨['a'], 5000, 6000⟩] 10000 rfl

/-- Claim C6: every failure of the external correction call (missing
library, raised request, non-200 status, malformed body) and every
word-count mismatch leaves the caption list unmodified; the component is a
total function, so no exception escapes it. -/
theorem C6_unmodified (captions : List Caption) :
    enhance_with_groq captions .importFailed = captions
      ∧ enhance_with_groq captions .requestFailed = captions
      ∧ (∀ code, enhance_with_groq captions (.httpError code) = captions)
      ∧ enhance_with_groq captions .malformedBody = captions
      ∧ (∀ content, (pySplitWs (pyStrip content)).length ≠ captions.length →
          enhance_with_groq captions (.ok content) = captions) := by
  refine ⟨rfl, rfl, fun code => rfl, rfl, ?_⟩
  intro content hne
  show applyCorrections captions _ = captions
  unfold applyCorrections
  rw [if_neg hne]

/-- Witness for C6: a two-word correction against one caption is
rejected and the caption list returned unchanged. -/
theorem C6_unmodified_witness :
    enhance_with_groq [⟨"ka".toList, 200, 400, 9/10, none, none, none⟩]
        (.ok " kya hai".toList)
      = [⟨"ka".toList, 200, 400, 9/10, none, none, none⟩] :=
  (C6_unmodified [⟨"ka".toList, 200, 400, 9/10, none, none, none⟩]).2.2.2.2
    (" kya hai".toList) (by decide)

/-- Claim C7: when the corrected word count matches, each position whose
token differs gets its old text stored in `original`, the new text
installed, and `enhanced` set; unchanged positions are returned exactly
as they were. -/
theorem C7_applied (captions : List Caption) (ws : List PyString)
    (h : ws.length = captions.length) :
    (applyCorrections captions ws).length = captions.length
      ∧ ∀ i (hi : i < captions.length),
          (applyCorrections captions ws)[i]?
            = some (if (captions.get ⟨i, hi⟩).text = ws.get ⟨i, by omega⟩
                then captions.get ⟨i, hi⟩
                else { captions.get ⟨i, hi⟩ with
                        original := some (captions.get ⟨i, hi⟩).text,
                        text := ws.get ⟨i, by omega⟩,
                        enhanced := some true }) := by
  constructor
  · unfold applyCorrections
    rw [if_pos h, List.length_zipWith]
    omega
  · intro i hi
    unfold applyCorrections
    rw [if_pos h, List.getElem?_zipWith,
        getElem?_eq_some_get captions i hi,
        getElem?_eq_some_get ws i (show i < ws.length by omega)]
    show some (correctCaption _ _) = _
    unfold correctCaption
    by_cases hc : (captions.get ⟨i, hi⟩).text = ws.get ⟨i, by omega⟩
    · rw [if_neg (not_not_intro hc), if_pos hc]
    · rw [if_pos hc, if_neg hc]

/-- Witness for C7: corrected tokens "kya" and "hai" replace "ka" and
"hay" with provenance recorded; here position 0 is shown. -/
theorem C7_applied_witness :
    (applyCorrections
        [⟨"ka".toList, 200, 400, 9/10, none, none, none⟩,
         ⟨"hay".toList, 400, 600, 9/10, none, none, none⟩,
         ⟨"accha".toList, 600, 800, 9/10, none, none, none⟩]
        ["kya".toList, "hai".toList, "accha".toList])[0]?
      = some ⟨"kya".toList, 200, 400, 9/10, some "ka".toList, some true, none⟩ := by
  have h := (C7_applied
      [⟨"ka".toList, 200, 400, 9/10, none, none, none⟩,
       ⟨"hay".toList, 400, 600, 9/10, none, none, none⟩,
       ⟨"accha".toList, 600, 800, 9/10, none, none, none⟩]
      ["kya".toList, "hai".toList, "accha".toList] (by decide)).2 0 (by decide)
  rw [h, if_neg (by decide)]
  rfl

/-- Claim C8: the flagger adds `lowConfidence: true` exactly to the
captions strictly below the threshold, changes nothing else about any
record, preserves length and order, and maps the empty list to itself. -/
theorem C8_flag (captions : List Caption) (t : ℚ) :
    (flag_low_confidence captions t).length = captions.length
      ∧ flag_low_confidence [] t = []
      ∧ ∀ i (hi : i < captions.length),
          (flag_low_confidence captions t)[i]?
            = some (if (captions.get ⟨i, hi⟩).confidence < t
                then { captions.get ⟨i, hi⟩ with lowConfidence := some true }
                else captions.get ⟨i, hi⟩)
          ∧ (flag_low_confidence captions t)[i]?.map Caption.text
              = some (captions.get ⟨i, hi⟩).text
          ∧ (flag_low_confidence captions t)[i]?.map Caption.startMs
              = some (captions.get ⟨i, hi⟩).startMs
          ∧ (flag_low_confidence captions t)[i]?.map Caption.endMs
              = some (captions.get ⟨i, hi⟩).endMs
          ∧ (flag_low_confidence captions t)[i]?.map Caption.confidence
              = some (captions.get ⟨i, hi⟩).confidence := by
  refine ⟨List.length_map _ _, rfl, ?_⟩
  intro i hi
  have hmain : (flag_low_confidence captions t)[i]?
      = some (if (captions.get ⟨i, hi⟩).confidence < t
          then { captions.get ⟨i, hi⟩ with lowConfidence := some true }
          else captions.get ⟨i, hi⟩) := by
    unfold flag_low_confidence
    rw [List.getElem?_map, getElem?_eq_some_get captions i hi, Option.map_some']
  refine ⟨hmain, ?_, ?_, ?_, ?_⟩ <;>
    rw [hmain, Option.map_some'] <;> split <;> rfl

/-- Witness for C8: confidences 0.5, 0.9, 0.3 with threshold 0.7 flag
exactly positions 0 and 2 and leave position 1 untouched. -/
theorem C8_flag_witness :
    (flag_low_confidence
        [⟨['a'], 0, 1, 1/2, none, none, none⟩,
         ⟨['b'], 1, 2, 9/10, none, none, none⟩,
         ⟨['c'], 2, 3, 3/10, none, none, none⟩] (7/10))[0]?
      = some ⟨['a'], 0, 1, 1/2, none, none, some true⟩
    ∧ (flag_low_confidence
        [⟨['a'], 0, 1, 1/2, none, none, none⟩,
         ⟨['b'], 1, 2, 9/10, none, none, none⟩,
         ⟨['c'], 2, 3, 3/10, none, none, none⟩] (7/10))[1]?
      = some ⟨['b'], 1, 2, 9/10, none, none, none⟩
    ∧ (flag_low_confidence
        [⟨['a'], 0, 1, 1/2, none, none, none⟩,
         ⟨['b'], 1, 2, 9/10, none, none, none⟩,
         ⟨['c'], 2, 3, 3/10, none, none, none⟩] (7/10))[2]?
      = some ⟨['c'], 2, 3, 3/10, none, none, some true⟩ := by
  refine ⟨?_, ?_, ?_⟩
  · have h := ((C8_flag
        [⟨['a'], 0, 1, 1/2, none, none, none⟩,
         ⟨['b'], 1, 2, 9/10, none, none, none⟩,
         ⟨['c'], 2, 3, 3/10, none, none, none⟩] (7/10)).2.2 0 (by decide)).1
    rw [h, if_pos (by norm_num)]
    rfl
  · have h := ((C8_flag
        [⟨['a'], 0, 1, 1/2, none, none, none⟩,
         ⟨['b'], 1, 2, 9/10, none, none, none⟩,
         ⟨['c'], 2, 3, 3/10, none, none, none⟩] (7/10)).2.2 1 (by decide)).1
    rw [h, if_neg (by norm_num)]
    rfl
  · have h := ((C8_flag
        [⟨['a'], 0, 1, 1/2, none, none, none⟩,
         ⟨['b'], 1, 2, 9/10, none, none, none⟩,
         ⟨['c'], 2, 3, 3/10, none, none, none⟩] (7/10)).2.2 2 (by decide)).1
    rw [h, if_pos (by norm_num)]
    rfl
